import Mathlib

/-!
Shallow embedding of the proglog storage core (store, index, segment) and
proofs checking the natural-language specification against it.

Machine integers are modelled as `Nat` with explicit reduction modulo
`2^32` / `2^64` at the points where the Go code performs unsigned
conversions or where wraparound is reachable.  Go runtime panics (slice
bounds violations) are modelled as the distinguished error `Err.panicked`,
which is never caught by any modelled code path.
-/

namespace Proglog

/-- Modulus of Go's `uint32` type. -/
def U32 : Nat := 4294967296

/-- Modulus of Go's `uint64` type. -/
def U64 : Nat := 18446744073709551616

/-- Number of bytes used to store a record's length in the store
(`lenWidth` in the source). -/
def lenWidth : Nat := 8

/-- Width in bytes of the offset field of an index entry (`offWidth`). -/
def offWidth : Nat := 4

/-- Width in bytes of the position field of an index entry (`posWidth`). -/
def posWidth : Nat := 8

/-- Width in bytes of one index entry (`entryWidth = offWidth + posWidth`). -/
def entryWidth : Nat := offWidth + posWidth

/-- Failure outcomes of the modelled operations.  `eof` models `io.EOF`,
`ioError` models an underlying file-write failure surfaced through the
buffered writer, `decodeFailed` models a record-deserialization error, and
`panicked` models a Go runtime panic (slice bounds out of range) — a crash,
not a returned error. -/
inductive Err where
  | eof
  | ioError
  | decodeFailed
  | panicked
deriving DecidableEq

/-- Big-endian value of a byte list, as computed by `encoding/binary`'s
`Uint32`/`Uint64` on a slice of the corresponding length. -/
def beVal (b : List Nat) : Nat :=
  b.foldl (fun acc x => acc * 256 + x) 0

/-- Big-endian 4-byte encoding of the low 32 bits of `n`
(`binary.BigEndian.PutUint32`).  Each byte formula depends only on
`n % 2^32`, so this is exactly the `uint32` encoding. -/
def putUint32be (n : Nat) : List Nat :=
  [n / 2 ^ 24 % 256, n / 2 ^ 16 % 256, n / 2 ^ 8 % 256, n % 256]

/-- Big-endian 8-byte encoding of the low 64 bits of `n`
(`binary.BigEndian.PutUint64`). -/
def putUint64be (n : Nat) : List Nat :=
  [n / 2 ^ 56 % 256, n / 2 ^ 48 % 256, n / 2 ^ 40 % 256, n / 2 ^ 32 % 256,
   n / 2 ^ 24 % 256, n / 2 ^ 16 % 256, n / 2 ^ 8 % 256, n % 256]

/-- Go slice expression `l[lo:hi]`: panics unless `lo ≤ hi ≤ len(l)`. -/
def goSlice (l : List Nat) (lo hi : Nat) : Except Err (List Nat) :=
  if lo ≤ hi ∧ hi ≤ l.length then Except.ok ((l.drop lo).take (hi - lo))
  else Except.error Err.panicked

/-- Go's `binary.BigEndian.Uint32(b)`: panics if `len(b) < 4`, otherwise
decodes the first four bytes big-endian. -/
def goUint32 (b : List Nat) : Except Err Nat :=
  if 4 ≤ b.length then Except.ok (beVal (b.take 4)) else Except.error Err.panicked

/-- Go's `binary.BigEndian.Uint64(b)`: panics if `len(b) < 8`, otherwise
decodes the first eight bytes big-endian. -/
def goUint64 (b : List Nat) : Except Err Nat :=
  if 8 ≤ b.length then Except.ok (beVal (b.take 8)) else Except.error Err.panicked

/-- Go `uint64` subtraction `a - b` (wraparound modulo `2^64`). -/
def goSub64 (a b : Nat) : Nat :=
  (a % U64 + (U64 - b % U64)) % U64

/-- Go conversion `int64(n)` of a `uint64` value `n < 2^64`: values with the
top bit set become negative (two's complement reinterpretation). -/
def int64OfUint64 (n : Nat) : Int :=
  if n < 9223372036854775808 then (n : Int) else (n : Int) - (U64 : Int)

/-- Overwrite the bytes of `l` starting at `start` with `bytes`, in place;
models `binary.BigEndian.PutUint32/PutUint64` writing into a subslice of the
mapped region. -/
def listWrite (l : List Nat) (start : Nat) (bytes : List Nat) : List Nat :=
  l.take start ++ bytes ++ l.drop (start + bytes.length)

/-- The index: a memory-mapped byte region `mmap` and the number `size` of
bytes of it actually used (struct `index` in `index.go`). -/
structure Index where
  mmap : List Nat
  size : Nat
deriving DecidableEq

/-- Body of `index.Read` from `index.go` after `offsetUsed` has been
resolved: the range check against `size`, then exactly the source's slice
expressions — including `mmap[entryStart:offWidth]`, whose bounds are
modelled faithfully by `goSlice` (an inverted slice panics). -/
def indexReadAt (idx : Index) (offsetUsed : Nat) : Except Err (Nat × Nat) :=
  if offsetUsed * entryWidth + entryWidth > idx.size then Except.error Err.eof
  else
    let entryStart := offsetUsed * entryWidth
    match goSlice idx.mmap entryStart offWidth with
    | Except.error e => Except.error e
    | Except.ok offBytes =>
      match goUint32 offBytes with
      | Except.error e => Except.error e
      | Except.ok offsetRead =>
        match goSlice idx.mmap (entryStart + offWidth) (entryStart + entryWidth) with
        | Except.error e => Except.error e
        | Except.ok posBytes =>
          match goUint64 posBytes with
          | Except.error e => Except.error e
          | Except.ok storePosition => Except.ok (offsetRead, storePosition)

/-- `index.Read(offsetGiven)` from `index.go`.  Returns `io.EOF` on an empty
index; resolves the `-1` sentinel to the last entry via `uint32` arithmetic
`uint32(size)/uint32(entryWidth) - 1`; otherwise truncates `offsetGiven` to
`uint32`; then reads the entry via `indexReadAt`. -/
def indexRead (idx : Index) (offsetGiven : Int) : Except Err (Nat × Nat) :=
  if idx.size = 0 then Except.error Err.eof
  else
    indexReadAt idx
      (if offsetGiven = -1 then
        (idx.size % U32 / (entryWidth % U32) + (U32 - 1)) % U32
      else
        (offsetGiven % (U32 : Int)).toNat)

/-- `index.Write(offset, storePosition)` from `index.go`: fails with `io.EOF`
when `len(mmap) < size + entryWidth`, otherwise puts the 4-byte big-endian
offset at `[size, size+offWidth)` and the 8-byte big-endian position at
`[size+offWidth, size+entryWidth)` and advances `size` by `entryWidth`. -/
def indexWrite (idx : Index) (offset storePosition : Nat) :
    Except Err Unit × Index :=
  if idx.mmap.length < idx.size + entryWidth then (Except.error Err.eof, idx)
  else
    (Except.ok (),
     { mmap := listWrite (listWrite idx.mmap idx.size (putUint32be offset))
                 (idx.size + offWidth) (putUint64be storePosition),
       size := idx.size + entryWidth })

/-- The store: file contents, the pending bytes of the buffered writer, the
running `size` counter, plus a failure oracle for the buffered writer.
`wFail` lists the outcomes of successive buffered-write operations (`true` =
the underlying file write fails during this operation) and `wErr` is the
`bufio.Writer`'s sticky error flag. -/
structure Store where
  fileData : List Nat
  buf : List Nat
  size : Nat
  wFail : List Bool
  wErr : Bool
deriving DecidableEq

/-- One write operation through the store's `bufio.Writer`: returns the
sticky error if set, consumes one oracle entry, and on success appends the
bytes to the pending buffer and returns their count (as `buf.Write` and
`binary.Write` do). -/
def bufWrite (s : Store) (bytes : List Nat) : Except Err Nat × Store :=
  if s.wErr then (Except.error Err.ioError, s)
  else
    match s.wFail with
    | true :: rest => (Except.error Err.ioError, { s with wFail := rest, wErr := true })
    | false :: rest => (Except.ok bytes.length, { s with wFail := rest, buf := s.buf ++ bytes })
    | [] => (Except.ok bytes.length, { s with buf := s.buf ++ bytes })

/-- `store.Append(data)` from the store source: records `pos := size`, writes
the 8-byte big-endian length of `data`, then `data` itself, to the buffered
writer, returning early with the error of either write; on success returns
`(len(data) + lenWidth, pos)` and advances `size` by that count (`uint64`
addition). -/
def storeAppend (s : Store) (data : List Nat) : Except Err (Nat × Nat) × Store :=
  let pos := s.size
  let w1 := bufWrite s (putUint64be data.length)
  match w1.fst with
  | Except.error e => (Except.error e, w1.snd)
  | Except.ok _ =>
    let w2 := bufWrite w1.snd data
    match w2.fst with
    | Except.error e => (Except.error e, w2.snd)
    | Except.ok n =>
      let bytesWritten := n + lenWidth
      (Except.ok (bytesWritten, pos),
       { w2.snd with size := (w2.snd.size + bytesWritten) % U64 })

/-- `store.Read(pos)` from the store source: flushes the buffer (fails if the
writer's sticky error is set), then reads the 8-byte length at `pos` and that
many payload bytes at `pos + lenWidth` with `File.ReadAt`, which fails with
`io.EOF` on a short read and with an error on a negative `int64` offset. -/
def storeRead (s : Store) (pos : Nat) : Except Err (List Nat) × Store :=
  if s.wErr then (Except.error Err.ioError, s)
  else
    let s1 : Store := { s with fileData := s.fileData ++ s.buf, buf := [] }
    if 9223372036854775808 ≤ pos then (Except.error Err.ioError, s1)
    else if pos + lenWidth ≤ s1.fileData.length then
      let recordLen := beVal ((s1.fileData.drop pos).take lenWidth)
      if pos + lenWidth + recordLen ≤ s1.fileData.length then
        (Except.ok ((s1.fileData.drop (pos + lenWidth)).take recordLen), s1)
      else (Except.error Err.eof, s1)
    else (Except.error Err.eof, s1)

/-- Configuration consumed by the core (`Config` in `config.go`). -/
structure Config where
  maxStoreBytes : Nat
  maxIndexBytes : Nat
  initialOffset : Nat
deriving DecidableEq

/-- A record: an opaque byte payload plus the logical offset assigned at
append time (`api.Record`). -/
structure Record where
  value : List Nat
  offset : Nat
deriving DecidableEq

/-- Modelled from the spec: the record (de)serialization codec
(`proto.Marshal` of `api.Record`, a generated type not present in the
sources).  The spec treats the codec as a pluggable dependency — "any
length-prefixable binary encoding satisfies the contract" — so the model
uses a length-prefixed encoding of the payload followed by the 8-byte
offset; it is total, matching the fact that marshalling a well-formed
record does not fail. -/
def marshalRecord (r : Record) : List Nat :=
  putUint64be r.value.length ++ r.value ++ putUint64be r.offset

/-- Modelled from the spec: the inverse codec (`proto.Unmarshal` of
`api.Record`); fails on malformed bytes. -/
def unmarshalRecord (b : List Nat) : Except Err Record :=
  if lenWidth + lenWidth ≤ b.length then
    let n := beVal (b.take lenWidth)
    if b.length = lenWidth + n + lenWidth then
      Except.ok { value := (b.drop lenWidth).take n, offset := beVal (b.drop (lenWidth + n)) }
    else Except.error Err.decodeFailed
  else Except.error Err.decodeFailed

/-- A segment: its store, its index, the immutable `baseOffset`, the mutable
`nextOffset`, and the configuration (struct `segment`). -/
structure Segment where
  store : Store
  index : Index
  baseOffset : Nat
  nextOffset : Nat
  config : Config
deriving DecidableEq

/-- `newStore(f)` over a file with the given contents: `size` is initialized
from the file's length and the write buffer starts empty. -/
def newStoreModel (fileContents : List Nat) : Store :=
  { fileData := fileContents, buf := [], size := fileContents.length,
    wFail := [], wErr := false }

/-- `newIndex(f, c)` over a file with the given contents: `size` is the
file's pre-truncation length, and the mapped region is the file truncated
(zero-extended or shrunk) to `MaxIndexBytes`. -/
def newIndexModel (fileContents : List Nat) (c : Config) : Index :=
  { mmap :=
      if fileContents.length ≤ c.maxIndexBytes then
        fileContents ++ List.replicate (c.maxIndexBytes - fileContents.length) 0
      else fileContents.take c.maxIndexBytes,
    size := fileContents.length }

/-- `newSegment(dir, baseOffset, c)` given the current contents of the
segment's store and index files: builds the store and index, then attempts
`index.Read(-1)`; any returned error selects `nextOffset = baseOffset`,
success selects `baseOffset + off + 1` (`uint64` addition).  A panic inside
`index.Read` is not an error value in Go and propagates as a crash. -/
def newSegmentModel (storeContents indexContents : List Nat) (baseOffset : Nat)
    (c : Config) : Except Err Segment :=
  let st := newStoreModel storeContents
  let idx := newIndexModel indexContents c
  match indexRead idx (-1) with
  | Except.error Err.panicked => Except.error Err.panicked
  | Except.error _ =>
    Except.ok { store := st, index := idx, baseOffset := baseOffset,
                nextOffset := baseOffset, config := c }
  | Except.ok op =>
    Except.ok { store := st, index := idx, baseOffset := baseOffset,
                nextOffset := (baseOffset + op.1 + 1) % U64, config := c }

/-- `segment.Append(record)`: stamps the record with `nextOffset`, marshals
it, appends to the store, then writes the index entry
`(uint32(nextOffset - baseOffset), recordStart)`.  Faithful to the source,
the error of `store.Append` is captured and then overwritten by the result
of `index.Write` without being checked; on a store failure `recordStart` is
the zero value returned alongside the error. -/
def segAppend (s : Segment) (record : Record) : Except Err Nat × Segment :=
  let p := marshalRecord { record with offset := s.nextOffset }
  let sp := storeAppend s.store p
  let recordStart : Nat :=
    match sp.fst with
    | Except.ok r => r.2
    | Except.error _ => 0
  let iw := indexWrite s.index (goSub64 s.nextOffset s.baseOffset % U32) recordStart
  match iw.fst with
  | Except.error e => (Except.error e, { s with store := sp.snd, index := iw.snd })
  | Except.ok _ =>
    (Except.ok s.nextOffset,
     { s with store := sp.snd, index := iw.snd, nextOffset := (s.nextOffset + 1) % U64 })

/-- `segment.Read(offset)`: converts the logical offset with `uint64`
subtraction reinterpreted as `int64`, reads the index entry, reads the store
at the returned position, and unmarshals the bytes. -/
def segRead (s : Segment) (offset : Nat) : Except Err Record × Segment :=
  match indexRead s.index (int64OfUint64 (goSub64 offset s.baseOffset)) with
  | Except.error e => (Except.error e, s)
  | Except.ok op =>
    match storeRead s.store op.2 with
    | (Except.error e, st) => (Except.error e, { s with store := st })
    | (Except.ok entry, st) => (unmarshalRecord entry, { s with store := st })

/-- Run a sequence of `segment.Append` calls, collecting each result and the
final segment state. -/
def segAppendAll (s : Segment) (records : List Record) :
    List (Except Err Nat) × Segment :=
  match records with
  | [] => ([], s)
  | r :: rest =>
    let first := segAppend s r
    let others := segAppendAll first.snd rest
    (first.fst :: others.fst, others.snd)

/-- Contents of the store file after `store.Close` (flush then close). -/
def closeStoreContents (s : Store) : List Nat :=
  s.fileData ++ s.buf

/-- Contents of the index file after `index.Close` (sync the map, then
truncate the file down from capacity to `size`). -/
def closeIndexContents (idx : Index) : List Nat :=
  idx.mmap.take idx.size

/-- Whether an append result is a success. -/
def exceptOk (e : Except Err Nat) : Bool :=
  match e with
  | Except.ok _ => true
  | Except.error _ => false

/-- Configuration used by the repository's own segment test:
`MaxStoreBytes = 1024`, `MaxIndexBytes = 3 * entryWidth`. -/
def testConfig : Config :=
  { maxStoreBytes := 1024, maxIndexBytes := 36, initialOffset := 0 }

/-- The byte payload of the test record, `"hello world"`. -/
def helloWorld : List Nat :=
  [104, 101, 108, 108, 111, 32, 119, 111, 114, 108, 100]

/-- The test record before any offset is assigned. -/
def helloRecord : Record :=
  { value := helloWorld, offset := 0 }

/-- A fresh segment at `baseOffset = 16` (the result of
`newSegmentModel [] [] 16 testConfig`). -/
def seg16 : Segment :=
  { store := newStoreModel [], index := newIndexModel [] testConfig,
    baseOffset := 16, nextOffset := 16, config := testConfig }

/-- The segment after one successful append of the test record. -/
def s16one : Segment :=
  (segAppend seg16 helloRecord).snd

/-- The segment after two successful appends of the test record. -/
def s16two : Segment :=
  (segAppendAll seg16 [helloRecord, helloRecord]).snd

/-- A concrete index holding two 12-byte entries inside a 36-byte mapped
region: entry 0 is `(0, 0)`, entry 1 is `(1, 35)`. -/
def idxTwoEntries : Index :=
  { mmap := putUint32be 0 ++ putUint64be 0 ++ putUint32be 1 ++ putUint64be 35
             ++ List.replicate entryWidth 0,
    size := 2 * entryWidth }

/-- A store whose next buffered write fails (underlying file write error). -/
def storeFailing : Store :=
  { fileData := [], buf := [], size := 0, wFail := [true], wErr := false }

/-- A fresh segment at `baseOffset = 16` whose store's next write fails. -/
def segStoreFailing : Segment :=
  { store := storeFailing, index := newIndexModel [] testConfig,
    baseOffset := 16, nextOffset := 16, config := testConfig }

/-- A fresh segment at the maximal `uint64` base offset `2^64 - 1`. -/
def segMaxBase : Segment :=
  { store := newStoreModel [], index := newIndexModel [] testConfig,
    baseOffset := 18446744073709551615, nextOffset := 18446744073709551615,
    config := testConfig }

/-- A fresh segment at `baseOffset = 5`, used as a witness input. -/
def seg5 : Segment :=
  { store := newStoreModel [], index := newIndexModel [] testConfig,
    baseOffset := 5, nextOffset := 5, config := testConfig }

/-- An empty index over a 36-byte mapped region, used as a witness input. -/
def idx36 : Index :=
  { mmap := List.replicate 36 0, size := 0 }

/-- A failing store with `size = 5`, used as a witness input. -/
def stFail : Store :=
  { fileData := [], buf := [], size := 5, wFail := [true], wErr := false }

/-- The store state after the failed append on `stFail`. -/
def stFailAfter : Store :=
  (storeAppend stFail [1, 2, 3]).snd

/-- The store state after appending `[1, 2, 3]` to a fresh empty store. -/
def st3 : Store :=
  (storeAppend (newStoreModel []) [1, 2, 3]).snd

/-- A buffered write never changes the store's `size` counter. -/
theorem bufWrite_snd_size (s : Store) (bytes : List Nat) :
    ((bufWrite s bytes).snd).size = s.size := by
  unfold bufWrite
  split
  · rfl
  · split <;> rfl

/-- A successful buffered write reports the number of bytes handed to it. -/
theorem bufWrite_fst_ok {s : Store} {bytes : List Nat} {n : Nat}
    (h : (bufWrite s bytes).fst = Except.ok n) : n = bytes.length := by
  unfold bufWrite at h
  split at h
  · simp at h
  · split at h <;> simp_all

/-- Writing `b` at `s` and then `c` at `s + b.length` overwrites the byte
range `[s, s + b.length + c.length)` with `b ++ c` and leaves the rest of
the list unchanged. -/
theorem listWrite_pair (l b c : List Nat) (s : Nat)
    (hlen : s + b.length + c.length ≤ l.length) :
    listWrite (listWrite l s b) (s + b.length) c
      = l.take s ++ b ++ c ++ l.drop (s + b.length + c.length) := by
  unfold listWrite
  have hts : (l.take s).length = s := by
    rw [List.length_take]; omega
  have hlen1 : (l.take s ++ b).length = s + b.length := by
    rw [List.length_append, hts]
  have htake : (l.take s ++ b ++ l.drop (s + b.length)).take (s + b.length)
      = l.take s ++ b := List.take_left' hlen1
  have hdrop : (l.take s ++ b ++ l.drop (s + b.length)).drop (s + b.length + c.length)
      = l.drop (s + b.length + c.length) := by
    have h2 : ((l.take s ++ b) ++ l.drop (s + b.length)).drop
        ((l.take s ++ b).length + c.length)
        = (l.drop (s + b.length)).drop c.length := List.drop_append c.length
    rw [hlen1] at h2
    rw [h2, List.drop_drop]
  rw [htake, hdrop]

/-- C1: appending records round-trips through `Segment.Read` for every offset
in `[baseOffset, nextOffset)`.  The code violates this: with `baseOffset = 16`
and two successful appends (returning offsets 16 and 17), reading offset 16
does return the appended payload, but reading offset 17 evaluates the index's
inverted slice `mmap[12:4]` and panics instead of returning the record. -/
theorem c1_read_of_second_appended_record_panics :
    (segAppendAll seg16 [helloRecord, helloRecord]).fst
      = [Except.ok 16, Except.ok 17]
    ∧ (segRead s16two 16).fst = Except.ok { value := helloWorld, offset := 16 }
    ∧ (segRead s16two 17).fst = Except.error Err.panicked :=
  ⟨rfl, rfl, rfl⟩

/-- C2 counterexample: reading one offset below `baseOffset` does not fail.
With `baseOffset = 16` and one appended record, `Segment.Read 15` computes
`uint64(15 - 16) = 2^64 - 1`, reinterpreted as `int64(-1)`, which hits the
index's last-entry sentinel: the read succeeds and returns the record stored
at offset 16 — a record belonging to a different offset. -/
theorem c2_counterexample_read_below_base_returns_last_record :
    (segAppend seg16 helloRecord).fst = Except.ok 16
    ∧ (15 : Nat) < seg16.baseOffset
    ∧ (segRead s16one 15).fst = Except.ok { value := helloWorld, offset := 16 } :=
  ⟨rfl, by decide, rfl⟩

/-- C3: `Index.Read i` should succeed for every valid entry index.  The code
violates this for every entry beyond the first: on an index holding two
entries, `Read 0` succeeds but `Read 1` evaluates `mmap[entryStart:offWidth]
= mmap[12:4]`, an inverted slice, and panics. -/
theorem c3_index_read_panics_beyond_first_entry :
    idxTwoEntries.size = 2 * entryWidth
    ∧ indexRead idxTwoEntries 0 = Except.ok (0, 0)
    ∧ indexRead idxTwoEntries 1 = Except.error Err.panicked :=
  ⟨rfl, rfl, rfl⟩

/-- C4: `Segment.Append` should report a `Store.Append` failure.  The code
violates this: the store error is captured and then overwritten by the result
of `Index.Write` without being checked, so on a segment whose store write
fails (while the index write succeeds) `Append` returns offset 16 with no
error. -/
theorem c4_store_append_failure_swallowed :
    (storeAppend storeFailing (marshalRecord { helloRecord with offset := 16 })).fst
      = Except.error Err.ioError
    ∧ (segAppend segStoreFailing helloRecord).fst = Except.ok 16 :=
  ⟨rfl, rfl⟩

/-- C5: closing and reopening a segment should restore `nextOffset`.  The
code violates this for any segment holding two or more records: before the
close `nextOffset = 18`, but reopening evaluates `Index.Read (-1)`, which
resolves to entry index 1 and panics on the inverted slice `mmap[12:4]`
instead of resuming. -/
theorem c5_reopen_after_two_records_panics :
    s16two.nextOffset = 18
    ∧ newSegmentModel (closeStoreContents s16two.store)
        (closeIndexContents s16two.index) 16 testConfig
      = Except.error Err.panicked :=
  ⟨rfl, rfl⟩

/-- C9 counterexample: `nextOffset ≥ baseOffset` fails under `uint64`
wraparound.  A fresh segment created at `baseOffset = 2^64 - 1` satisfies the
inequality, but one successful append increments `nextOffset` modulo `2^64`
to `0`, strictly below `baseOffset`. -/
theorem c9_counterexample_next_offset_wraps_below_base :
    newSegmentModel [] [] 18446744073709551615 testConfig = Except.ok segMaxBase
    ∧ (segAppend segMaxBase helloRecord).fst = Except.ok 18446744073709551615
    ∧ ((segAppend segMaxBase helloRecord).snd).nextOffset = 0
    ∧ ¬ ((segAppend segMaxBase helloRecord).snd).baseOffset
          ≤ ((segAppend segMaxBase helloRecord).snd).nextOffset :=
  ⟨rfl, rfl, rfl, by decide⟩

/-- C7: `Index.Write` fails with `EOF` exactly when one more entry would
exceed the mapped capacity, and otherwise writes the 4-byte big-endian
offset followed by the 8-byte big-endian position at `[size, size +
entryWidth)` — leaving all other mapped bytes unchanged — and advances
`size` by `entryWidth`. -/
theorem c7_index_write_spec (idx : Index) (off pos : Nat) :
    ((indexWrite idx off pos).fst = Except.error Err.eof
        ↔ idx.mmap.length < idx.size + entryWidth)
    ∧ (idx.size + entryWidth ≤ idx.mmap.length →
        indexWrite idx off pos
          = (Except.ok (),
             { mmap := idx.mmap.take idx.size ++ putUint32be off ++ putUint64be pos
                        ++ idx.mmap.drop (idx.size + entryWidth),
               size := idx.size + entryWidth })) := by
  constructor
  · unfold indexWrite
    split
    · simp_all
    · simp_all
  · intro hle
    unfold indexWrite
    rw [if_neg (by omega)]
    simp only [Prod.mk.injEq, Index.mk.injEq]
    refine ⟨trivial, ?_, trivial⟩
    have h4 : (putUint32be off).length = 4 := rfl
    have h8 : (putUint64be pos).length = 8 := rfl
    have hew : entryWidth = 12 := rfl
    have e1 : idx.size + offWidth = idx.size + (putUint32be off).length := by
      simp only [offWidth, h4]
    have e2 : idx.size + entryWidth
        = idx.size + (putUint32be off).length + (putUint64be pos).length := by
      simp only [h4, h8, hew]
    rw [e1, e2]
    exact listWrite_pair idx.mmap (putUint32be off) (putUint64be pos) idx.size
      (by rw [h4, h8]; rw [hew] at hle; omega)

/-- C7 witness: writing entry `(7, 9)` into an empty 36-byte index succeeds
and produces exactly the described mapped region and size. -/
theorem c7_witness :
    indexWrite idx36 7 9
      = (Except.ok (),
         { mmap := idx36.mmap.take idx36.size ++ putUint32be 7 ++ putUint64be 9
                    ++ idx36.mmap.drop (idx36.size + entryWidth),
           size := idx36.size + entryWidth }) :=
  (c7_index_write_spec idx36 7 9).2 (by decide)

/-- C8: a successful `Store.Append` returns `bytesWritten = lenWidth +
len(payload)` and a start position equal to the size before the append, and
advances the size by `bytesWritten` (`uint64` addition, which is plain
addition whenever it does not wrap). -/
theorem c8_store_append_spec (s : Store) (data : List Nat) (n pos : Nat) (s' : Store)
    (h : storeAppend s data = (Except.ok (n, pos), s')) :
    n = data.length + lenWidth ∧ pos = s.size ∧ s'.size = (s.size + n) % U64
    ∧ (s.size + n < U64 → s'.size = s.size + n) := by
  simp only [storeAppend] at h
  rcases hw1 : (bufWrite s (putUint64be data.length)).fst with e1 | n1
  · rw [hw1] at h
    simp [Prod.ext_iff] at h
  · rw [hw1] at h
    rcases hw2 : (bufWrite (bufWrite s (putUint64be data.length)).snd data).fst with e2 | n2
    · rw [hw2] at h
      simp [Prod.ext_iff] at h
    · rw [hw2] at h
      have hn2 : n2 = data.length := bufWrite_fst_ok hw2
      have hsz : (bufWrite (bufWrite s (putUint64be data.length)).snd data).snd.size
          = s.size := by
        rw [bufWrite_snd_size, bufWrite_snd_size]
      simp only [Prod.mk.injEq, Except.ok.injEq] at h
      obtain ⟨⟨hn, hp⟩, hs⟩ := h
      subst hn
      subst hp
      subst hs
      refine ⟨by rw [hn2], rfl, ?_, ?_⟩
      · simp [hsz]
      · intro hlt
        simp [hsz]
        exact Nat.mod_eq_of_lt (by simpa [hsz] using hlt)

/-- C8 witness: appending the 3-byte payload `[1, 2, 3]` to a fresh empty
store advances the size to `(0 + 11) % 2^64`. -/
theorem c8_witness : st3.size = ((newStoreModel []).size + 11) % U64 :=
  ((c8_store_append_spec (newStoreModel []) [1, 2, 3] 11 0 st3 rfl).2).2.1

/-- C10: whenever `Store.Append` returns an error — from either buffered
write — the store's `size` counter is unchanged. -/
theorem c10_failed_append_preserves_size (s : Store) (data : List Nat) (e : Err)
    (s' : Store) (h : storeAppend s data = (Except.error e, s')) :
    s'.size = s.size := by
  simp only [storeAppend] at h
  rcases hw1 : (bufWrite s (putUint64be data.length)).fst with e1 | n1
  · rw [hw1] at h
    simp only [Prod.mk.injEq] at h
    obtain ⟨_, h2⟩ := h
    rw [← h2, bufWrite_snd_size]
  · rw [hw1] at h
    rcases hw2 : (bufWrite (bufWrite s (putUint64be data.length)).snd data).fst with e2 | n2
    · rw [hw2] at h
      simp only [Prod.mk.injEq] at h
      obtain ⟨_, h2⟩ := h
      rw [← h2, bufWrite_snd_size, bufWrite_snd_size]
    · rw [hw2] at h
      simp [Prod.ext_iff] at h

/-- C10 witness: the failed append on a store of size 5 leaves the size 5. -/
theorem c10_witness : stFailAfter.size = stFail.size :=
  c10_failed_append_preserves_size stFail [1, 2, 3] Err.ioError stFailAfter rfl

/-- A successful `segment.Append` returns the pre-call `nextOffset`,
increments `nextOffset` modulo `2^64`, and leaves `baseOffset` unchanged. -/
theorem segAppend_fst_ok {s : Segment} {r : Record} {v : Nat}
    (h : (segAppend s r).fst = Except.ok v) :
    v = s.nextOffset
    ∧ (segAppend s r).snd.nextOffset = (s.nextOffset + 1) % U64
    ∧ (segAppend s r).snd.baseOffset = s.baseOffset := by
  simp only [segAppend] at h ⊢
  rcases hiw : (indexWrite s.index (goSub64 s.nextOffset s.baseOffset % U32)
      (match (storeAppend s.store (marshalRecord { r with offset := s.nextOffset })).fst with
       | Except.ok x => x.2
       | Except.error _ => 0)).fst with e | u
  · rw [hiw] at h
    simp at h
  · rw [hiw] at h
    simp at h
    refine ⟨h.symm, ?_, ?_⟩ <;> simp

/-- Starting from any segment whose `nextOffset` is a valid `uint64` value,
a run of appends in which every result is a success returns, at position
`i`, the offset `nextOffset + i` modulo `2^64`. -/
theorem segAppendAll_offsets (rs : List Record) :
    ∀ (s : Segment), s.nextOffset < U64 →
      (∀ e ∈ (segAppendAll s rs).fst, exceptOk e = true) →
      ∀ i, i < rs.length →
        (segAppendAll s rs).fst.get? i
          = some (Except.ok ((s.nextOffset + i) % U64)) := by
  induction rs with
  | nil =>
    intro s _ _ i hi
    simp at hi
  | cons r rest ih =>
    intro s hlt hok i hi
    have hok0 : exceptOk (segAppend s r).fst = true := by
      apply hok
      simp [segAppendAll]
    obtain ⟨v, hv⟩ : ∃ v, (segAppend s r).fst = Except.ok v := by
      rcases hfst : (segAppend s r).fst with e | v
      · rw [hfst] at hok0
        simp [exceptOk] at hok0
      · exact ⟨v, rfl⟩
    obtain ⟨hv1, hv2, _⟩ := segAppend_fst_ok hv
    cases i with
    | zero =>
      have : (s.nextOffset + 0) % U64 = s.nextOffset := by
        rw [Nat.add_zero, Nat.mod_eq_of_lt hlt]
      rw [this]
      simp [segAppendAll, hv, hv1]
    | succ i =>
      have hcons : (segAppendAll s (r :: rest)).fst.get? (i + 1)
          = (segAppendAll (segAppend s r).snd rest).fst.get? i := by
        simp [segAppendAll]
      rw [hcons]
      have hok' : ∀ e ∈ (segAppendAll (segAppend s r).snd rest).fst,
          exceptOk e = true := by
        intro e he
        apply hok
        simp [segAppendAll]
        right
        exact he
      have hlt' : (segAppend s r).snd.nextOffset < U64 := by
        rw [hv2]
        exact Nat.mod_lt _ (by decide)
      have hih := ih (segAppend s r).snd hlt' hok' i (by simpa using hi)
      rw [hih, hv2]
      have harith : ((s.nextOffset + 1) % U64 + i) % U64
          = (s.nextOffset + (i + 1)) % U64 := by
        rw [Nat.mod_add_mod]
        congr 1
        omega
      rw [harith]

/-- C6: for a segment freshly created at `baseOffset = B`, any run of
appends in which every result succeeds returns logical offset `B + (n-1)`
(as a `uint64`) from the n-th append; the i-th collected result (0-based)
is `B + i`. -/
theorem c6_append_offsets (B : Nat) (c : Config) (s : Segment) (rs : List Record)
    (i : Nat) (hB : B < U64)
    (hnew : newSegmentModel [] [] B c = Except.ok s)
    (hok : ∀ e ∈ (segAppendAll s rs).fst, exceptOk e = true)
    (hi : i < rs.length) :
    (segAppendAll s rs).fst.get? i = some (Except.ok ((B + i) % U64)) := by
  have hs : s.nextOffset = B := by
    simp [newSegmentModel, newIndexModel, newStoreModel, indexRead] at hnew
    rw [← hnew]
  rw [← hs]
  exact segAppendAll_offsets rs s (by rw [hs]; exact hB) hok i hi

/-- C6 witness: three appends of `"hello world"` on a fresh segment at
`baseOffset = 16` return offsets 16, 17, 18; here the third result. -/
theorem c6_witness :
    (segAppendAll seg16 [helloRecord, helloRecord, helloRecord]).fst.get? 2
      = some (Except.ok 18) := by
  have h := c6_append_offsets 16 testConfig seg16
    [helloRecord, helloRecord, helloRecord] 2 (by decide) rfl (by decide) (by decide)
  have h18 : ((16 + 2 : Nat)) % U64 = 18 := by decide
  rw [h18] at h
  exact h

/-- Reducing a reinterpreted `uint64` value modulo `2^32` (the `uint32`
conversion applied to the `int64`) recovers the low 32 bits of the value. -/
theorem int64OfUint64_emod_u32 (d : Nat) :
    (int64OfUint64 d % (U32 : Int)).toNat = d % U32 := by
  simp only [int64OfUint64, U32, U64]
  split <;> omega

/-- The reinterpretation of a `uint64` value as `int64` equals `-1` only for
the value `2^64 - 1`. -/
theorem int64OfUint64_ne_neg_one (d : Nat) (hne : d ≠ U64 - 1) :
    int64OfUint64 d ≠ -1 := by
  simp only [int64OfUint64, U64] at hne ⊢
  split <;> omega

/-- C2 amended: `Segment.Read offset` fails with an `EOF` error for every
offset whose `uint64` distance from `baseOffset` is not `2^64 - 1` (the
value that hits the index's `-1` last-entry sentinel) and whose low 32 bits
are at least the number `n` of index entries; in particular this covers
every offset in `[nextOffset, baseOffset + 2^32)` of a well-formed segment.
At distance `2^64 - 1` (i.e. `offset = baseOffset - 1`) a nonempty segment
instead returns its last record. -/
theorem c2_amended_out_of_range_read_eof (s : Segment) (offset n : Nat)
    (hsize : s.index.size = entryWidth * n)
    (hne : goSub64 offset s.baseOffset ≠ U64 - 1)
    (hout : n ≤ goSub64 offset s.baseOffset % U32) :
    (segRead s offset).fst = Except.error Err.eof := by
  have hew : entryWidth = 12 := rfl
  have hidx : indexRead s.index (int64OfUint64 (goSub64 offset s.baseOffset))
      = Except.error Err.eof := by
    simp only [indexRead]
    rcases Nat.eq_zero_or_pos n with hn | hn
    · subst hn
      rw [if_pos (by rw [hsize]; simp)]
    · rw [if_neg (by rw [hsize, hew]; omega)]
      rw [if_neg (int64OfUint64_ne_neg_one _ hne)]
      rw [int64OfUint64_emod_u32]
      unfold indexReadAt
      rw [if_pos (by rw [hsize, hew]; omega)]
  simp [segRead, hidx]

/-- C2 amended witness: on a fresh (empty) segment at `baseOffset = 16`,
reading offset 20 (distance 4, zero entries) fails with `EOF`. -/
theorem c2_amended_witness :
    seg16.index.size = entryWidth * 0
    ∧ (segRead seg16 20).fst = Except.error Err.eof :=
  ⟨rfl, c2_amended_out_of_range_read_eof seg16 20 0 rfl (by decide) (by decide)⟩

/-- Folding the big-endian accumulator over bytes below 256 stays below
`(a + 1) * 256 ^ length`. -/
theorem beVal_foldl_lt (b : List Nat) :
    ∀ a : Nat, (∀ x ∈ b, x < 256) →
      b.foldl (fun acc x => acc * 256 + x) a < (a + 1) * 256 ^ b.length := by
  induction b with
  | nil =>
    intro a _
    simp
  | cons x t ih =>
    intro a hb
    have hx : x < 256 := hb x (by simp)
    have hrec := ih (a * 256 + x) (fun y hy => hb y (by simp [hy]))
    have hstep : (a * 256 + x + 1) * 256 ^ t.length ≤ (a + 1) * 256 ^ (t.length + 1) := by
      have h1 : a * 256 + x + 1 ≤ (a + 1) * 256 := by omega
      calc (a * 256 + x + 1) * 256 ^ t.length
          ≤ ((a + 1) * 256) * 256 ^ t.length := Nat.mul_le_mul_right _ h1
        _ = (a + 1) * 256 ^ (t.length + 1) := by ring
    simp only [List.foldl_cons, List.length_cons]
    exact lt_of_lt_of_le hrec hstep

/-- The big-endian value of a byte list is below `256 ^ length`. -/
theorem beVal_lt (b : List Nat) (hb : ∀ x ∈ b, x < 256) :
    beVal b < 256 ^ b.length := by
  have := beVal_foldl_lt b 0 hb
  simpa [beVal] using this

/-- Any offset field successfully returned by the index entry lookup over a
mapped region of genuine bytes fits in a `uint32`. -/
theorem indexReadAt_ok_offset_lt {idx : Index} {u o p : Nat}
    (hbytes : ∀ x ∈ idx.mmap, x < 256)
    (h : indexReadAt idx u = Except.ok (o, p)) : o < 4294967296 := by
  simp only [indexReadAt] at h
  split at h
  · simp at h
  · split at h
    · simp at h
    · next offBytes heq1 =>
      split at h
      · simp at h
      · next oR heq2 =>
        split at h
        · simp at h
        · next posBytes heq3 =>
          split at h
          · simp at h
          · next sp heq4 =>
            simp only [Except.ok.injEq, Prod.mk.injEq] at h
            obtain ⟨ho, _⟩ := h
            simp only [goSlice] at heq1
            split at heq1
            · simp only [Except.ok.injEq] at heq1
              simp only [goUint32] at heq2
              split at heq2
              · simp only [Except.ok.injEq] at heq2
                have hmem : ∀ x ∈ offBytes.take 4, x < 256 := by
                  intro x hx
                  apply hbytes
                  have hx1 : x ∈ offBytes := List.take_subset _ _ hx
                  rw [← heq1] at hx1
                  have hx2 := List.take_subset _ _ hx1
                  exact List.drop_subset _ _ hx2
                have hlt := beVal_lt (offBytes.take 4) hmem
                have hlen : (offBytes.take 4).length ≤ 4 := by
                  rw [List.length_take]
                  omega
                have hpow : 256 ^ (offBytes.take 4).length ≤ 256 ^ 4 :=
                  Nat.pow_le_pow_right (by omega) hlen
                rw [← ho, ← heq2]
                calc beVal (offBytes.take 4) < 256 ^ (offBytes.take 4).length := hlt
                  _ ≤ 256 ^ 4 := hpow
                  _ ≤ 4294967296 := by omega
              · simp at heq2
            · simp at heq1

/-- Any offset field successfully returned by `index.Read` over a mapped
region of genuine bytes fits in a `uint32`. -/
theorem indexRead_ok_offset_lt {idx : Index} {g : Int} {o p : Nat}
    (hbytes : ∀ x ∈ idx.mmap, x < 256)
    (h : indexRead idx g = Except.ok (o, p)) : o < 4294967296 := by
  simp only [indexRead] at h
  split at h
  · simp at h
  · exact indexReadAt_ok_offset_lt hbytes h

/-- Every byte of the mapped region built by `newIndexModel` from genuine
file bytes is a genuine byte (file contents or zero padding). -/
theorem newIndexModel_bytes {contents : List Nat} {c : Config}
    (h : ∀ x ∈ contents, x < 256) :
    ∀ x ∈ (newIndexModel contents c).mmap, x < 256 := by
  intro x hx
  simp only [newIndexModel] at hx
  split at hx
  · rcases List.mem_append.mp hx with h1 | h2
    · exact h x h1
    · have := List.eq_of_mem_replicate h2
      omega
  · exact h x (List.take_subset _ _ hx)

/-- C9 amended: `nextOffset ≥ baseOffset` holds provided no `uint64`
wraparound occurs.  Creation establishes the inequality — in the empty-index
case outright, and in the resume case whenever `baseOffset + 2^32` does not
overflow (the resume offset read from the index fits in 32 bits) — and every
successful `Append` preserves it as long as `nextOffset + 1` does not wrap. -/
theorem c9_amended_invariant :
    (∀ (storeContents indexContents : List Nat) (B : Nat) (c : Config) (s : Segment),
        (∀ x ∈ indexContents, x < 256) →
        B + 4294967296 < U64 →
        newSegmentModel storeContents indexContents B c = Except.ok s →
        s.baseOffset ≤ s.nextOffset)
    ∧ (∀ (s : Segment) (r : Record) (v : Nat) (s₂ : Segment),
        segAppend s r = (Except.ok v, s₂) →
        s.baseOffset ≤ s.nextOffset →
        s.nextOffset + 1 < U64 →
        s₂.baseOffset ≤ s₂.nextOffset) := by
  constructor
  · intro storeContents indexContents B c s hbytes hB hnew
    simp only [newSegmentModel] at hnew
    rcases hri : indexRead (newIndexModel indexContents c) (-1) with e | op
    · rw [hri] at hnew
      cases e <;> simp at hnew <;> rw [← hnew]
    · rw [hri] at hnew
      rcases op with ⟨o, p⟩
      have ho : o < 4294967296 :=
        indexRead_ok_offset_lt (newIndexModel_bytes hbytes) hri
      simp at hnew
      rw [← hnew]
      simp only
      have hlt : B + o + 1 < U64 := by omega
      rw [Nat.mod_eq_of_lt hlt]
      omega
  · intro s r v s₂ h hinv hnw
    have hfst : (segAppend s r).fst = Except.ok v := by rw [h]
    obtain ⟨_, h2, h3⟩ := segAppend_fst_ok hfst
    have hsnd : (segAppend s r).snd = s₂ := by rw [h]
    rw [hsnd] at h2 h3
    rw [h2, h3, Nat.mod_eq_of_lt hnw]
    omega

/-- C9 amended witness: a fresh segment created at `baseOffset = 5`
satisfies `baseOffset ≤ nextOffset`. -/
theorem c9_amended_witness : seg5.baseOffset ≤ seg5.nextOffset :=
  c9_amended_invariant.1 [] [] 5 testConfig seg5 (by decide) (by decide) rfl

end Proglog
